import Mathlib

/-
  Verification development for the CA2 pandemic-statistics service
  (src/app.py): a shallow embedding of its normalizer
  (`clean_and_transform_data`), its reconciler (`store_data_in_db`) and
  its query layer (`get_records`, `get_statistics`), together with the
  properties of the specification settled against that embedding.
-/

set_option maxHeartbeats 1000000

namespace CovidApp

/-- JSON-like values as delivered by the upstream API and as held in the
SQLite store (SQLite columns are dynamically typed, so a column can hold
any of these).  Numbers are modelled as rationals, covering both Python
ints and floats; a JSON object is an association list over string keys. -/
inductive JVal where
  | null : JVal
  | bool : Bool → JVal
  | num : Rat → JVal
  | str : String → JVal
  | arr : List JVal → JVal
  | obj : List (String × JVal) → JVal

/-- Python truthiness (`bool(x)`) on JSON values: `None`, `False`, `0`,
`0.0`, `""`, `[]` and `{}` are falsy, everything else is truthy. -/
def truthy : JVal → Bool
  | .null => false
  | .bool b => b
  | .num q => q != 0
  | .str s => s != ""
  | .arr xs => !xs.isEmpty
  | .obj kvs => !kvs.isEmpty

/-- Python `x or d`. -/
def jor (x d : JVal) : JVal := if truthy x then x else d

/-- Python `dict.get(k, d)` over an association-list object. -/
def jget (kvs : List (String × JVal)) (k : String) (d : JVal) : JVal :=
  (kvs.lookup k).getD d

/-- Python `str.strip()`: drop leading and trailing whitespace.  Python
strings are sequences of code points, so the string operations of the
embedding work on the code-point list. -/
def pyStrip (s : String) : String :=
  String.mk (((s.data.dropWhile Char.isWhitespace).reverse.dropWhile Char.isWhitespace).reverse)

/-- Python `s[:n]`: the first n code points. -/
def pyTake (s : String) (n : Nat) : String := String.mk (s.data.take n)

/-- Python `str.upper()`, on the letter range `Char.toUpper` maps. -/
def pyUpper (s : String) : String := String.mk (s.data.map Char.toUpper)

/-- Python `str.lower()`, on the letter range `Char.toLower` maps. -/
def pyLower (s : String) : String := String.mk (s.data.map Char.toLower)

/-- Python `x in ['All', 'Unknown']`: only a string can compare equal to
these string literals; any other value is simply not a member. -/
def isAggName : JVal → Bool
  | .str s => s == "All" || s == "Unknown"
  | _ => false

/-- The dictionary built for each entry by `clean_and_transform_data`
(src/app.py lines 102-118).  `country` and `country_code` are always
strings, because string methods are applied when producing them; the
remaining thirteen values are whatever JSON value survives the
`or`-defaulting, so they stay loosely typed. -/
structure CleanedRecord where
  country : String
  country_code : String
  continent : JVal
  population : JVal
  total_cases : JVal
  new_cases : JVal
  total_deaths : JVal
  new_deaths : JVal
  total_recovered : JVal
  active_cases : JVal
  critical_cases : JVal
  cases_per_million : JVal
  deaths_per_million : JVal
  total_tests : JVal
  tests_per_million : JVal

instance : Inhabited CleanedRecord :=
  ⟨⟨"", "", .null, .null, .null, .null, .null, .null, .null, .null, .null,
    .null, .null, .null, .null⟩⟩

/-- The dictionary literal of src/app.py lines 102-118, built once the
country value `s` and the three nested groups are known to have the types
the string/dict methods need. -/
def buildRecord (kvs cs ds ts : List (String × JVal)) (s : String) : CleanedRecord :=
  { country := pyStrip s
    country_code := pyUpper (pyTake s 3)
    continent := jget kvs "continent" (JVal.str "Unknown")
    population := jor (jget kvs "population" JVal.null) (JVal.num 0)
    total_cases := jor (jget cs "total" JVal.null) (JVal.num 0)
    new_cases := jor (jget cs "new" JVal.null) (JVal.num 0)
    total_deaths := jor (jget ds "total" JVal.null) (JVal.num 0)
    new_deaths := jor (jget ds "new" JVal.null) (JVal.num 0)
    total_recovered := jor (jget cs "recovered" JVal.null) (JVal.num 0)
    active_cases := jor (jget cs "active" JVal.null) (JVal.num 0)
    critical_cases := jor (jget cs "critical" JVal.null) (JVal.num 0)
    cases_per_million := jor (jget cs "1M_pop" JVal.null) (JVal.num 0)
    deaths_per_million := jor (jget ds "1M_pop" JVal.null) (JVal.num 0)
    total_tests := jor (jget ts "total" JVal.null) (JVal.num 0)
    tests_per_million := jor (jget ts "1M_pop" JVal.null) (JVal.num 0) }

/-- The body of the per-entry loop of `clean_and_transform_data`
(src/app.py lines 89-124).  `none` means the entry is skipped, whether by
the explicit `continue` for aggregate/placeholder names or because the
entry raised inside the try block (a non-object entry, a non-string
country value, or a non-object `cases`/`deaths`/`tests` group — the only
operations in the block that can raise). -/
def processEntryObj (kvs : List (String × JVal)) : Option CleanedRecord :=
  let cname := jget kvs "country" (JVal.str "Unknown")
  if isAggName cname then none
  else
    match cname, jget kvs "cases" (JVal.obj []), jget kvs "deaths" (JVal.obj []),
          jget kvs "tests" (JVal.obj []) with
    | .str s, .obj cs, .obj ds, .obj ts => some (buildRecord kvs cs ds ts s)
    | _, _, _, _ => none

def processEntry : JVal → Option CleanedRecord
  | .obj kvs => processEntryObj kvs
  | _ => none

/-- The accumulation loop of `clean_and_transform_data`: entries are
processed in order, successes appended, skips and per-entry failures
passed over silently. -/
def processList : List JVal → List CleanedRecord
  | [] => []
  | e :: rest =>
    match processEntry e with
    | some r => r :: processList rest
    | none => processList rest

/-- `clean_and_transform_data(raw_data)` (src/app.py lines 81-126).
`raw_data` is the parsed JSON of the upstream response: a JSON object, or
`none` when the fetch failed (Python `None`).  The result is `none` when
the function raises (slicing a non-sequence `response` value raises an
uncaught TypeError), otherwise `some` of the produced list.  A string
`response` value is sliceable and iterable in Python, so it is processed
character by character (each character entry then fails in the try block
and is skipped). -/
def clean_and_transform_data (raw_data : Option (List (String × JVal))) :
    Option (List CleanedRecord) :=
  match raw_data with
  | none => some []
  | some kvs =>
    if kvs.isEmpty then some []
    else
      match kvs.lookup "response" with
      | none => some []
      | some (JVal.arr entries) => some (processList (entries.take 500))
      | some (JVal.str s) =>
          some (processList ((s.data.map (fun c => JVal.str (String.mk [c]))).take 500))
      | some _ => none

/-- A row of the `covid_records` table (the `CovidRecord` model,
src/app.py lines 18-37).  The fifteen data columns are exactly the keys
of the cleaned dictionary, so they are grouped as `vals`; `id` is the
autoincrement primary key and `date_recorded` the timestamp column
(modelled as an abstract tick). -/
structure CovidRecord where
  id : Nat
  vals : CleanedRecord
  date_recorded : Nat

/-- The store: the table rows in rowid order (SQLite returns them in this
order for an unordered query, and `.first()` picks the first) together
with the next autoincrement id. -/
structure DB where
  rows : List CovidRecord
  nextId : Nat

/-- The `country` column of a row. -/
def CovidRecord.country (row : CovidRecord) : String := row.vals.country

/-- A row with the timestamp column forgotten: the data the claims
compare when they say "field values other than recordedAt". -/
def CovidRecord.core (row : CovidRecord) : Nat × CleanedRecord := (row.id, row.vals)

/-- The `country` column of every row, in rowid order. -/
def rowCountries (rows : List CovidRecord) : List String := rows.map CovidRecord.country

/-- The update branch of `store_data_in_db` (src/app.py lines 138-142):
overwrite every data column of the first row matching the country (the
row `.first()` returns) and refresh its timestamp. -/
def updateFirst (now : Nat) (r : CleanedRecord) : List CovidRecord → List CovidRecord
  | [] => []
  | row :: rest =>
    if row.country = r.country then { row with vals := r, date_recorded := now } :: rest
    else row :: updateFirst now r rest

/-- One iteration of the `store_data_in_db` loop (src/app.py lines
132-148) acting on the session's working state: look the country up
(Flask-SQLAlchemy sessions autoflush, so the lookup sees rows added
earlier in the same batch); update the first match in place, or append a
fresh row with the next id and `date_recorded` set to the current time. -/
def upsert (now : Nat) (db : DB) (r : CleanedRecord) : DB :=
  if db.rows.any (fun row => row.country == r.country) then
    { db with rows := updateFirst now r db.rows }
  else
    { rows := db.rows ++ [⟨db.nextId, r, now⟩], nextId := db.nextId + 1 }

/-- The whole loop of `store_data_in_db`, in batch order. -/
def applyAll (now : Nat) (db : DB) : List CleanedRecord → DB
  | [] => db
  | r :: rest => applyAll now (upsert now db r) rest

/-- The try/except body of `store_data_in_db`: `pending` is the session's
working state, `base` the last committed state.  `failAt = some k` means
the k-th storage operation raises (operation k < batch length is the
lookup/flush for record k, operation k = batch length is the final
commit); the except branch then rolls the session back to `base` and
returns 0.  Otherwise the loop counts every record it processes —
inserted or updated — and the commit publishes `pending`. -/
def storeGo (base : DB) (now : Nat) (failAt : Option Nat) :
    DB → Nat → Nat → List CleanedRecord → DB × Nat
  | pending, count, step, [] =>
    if failAt = some step then (base, 0) else (pending, count)
  | pending, count, step, r :: rest =>
    if failAt = some step then (base, 0)
    else storeGo base now failAt (upsert now pending r) (count + 1) (step + 1) rest

/-- `store_data_in_db(records)` (src/app.py lines 128-155), returning the
store after the invocation and the reported count. -/
def store_data_in_db (now : Nat) (failAt : Option Nat) (records : List CleanedRecord)
    (db : DB) : DB × Nat :=
  storeGo db now failAt db 0 0 records

/-- The last record of a batch carrying a given country, if any.  After a
whole invocation this is the record whose fields that country's row
holds. -/
def lastWith (c : String) : List CleanedRecord → Option CleanedRecord
  | [] => none
  | r :: t =>
    match lastWith c t with
    | some x => some x
    | none => if r.country = c then some r else none

/-- What one invocation leaves of a pre-existing row (timestamp aside):
the fields of the batch's last record with that row's country, or the
row's own fields when the batch never touches its country.  The id is
preserved. -/
def overwriteCore (rs : List CleanedRecord) (p : Nat × CleanedRecord) :
    Nat × CleanedRecord :=
  match lastWith p.2.country rs with
  | some x => (p.1, x)
  | none => p

/-- The rows one invocation appends: one per batch country not yet in the
store, in order of first appearance, with sequentially allocated ids and
the fields of that country's last batch record. -/
def newCores (rs : List CleanedRecord) (seen : List String) (start : Nat) :
    List (Nat × CleanedRecord) :=
  match rs with
  | [] => []
  | r :: t =>
    if r.country ∈ seen then newCores t seen start
    else (start, (lastWith r.country t).getD r) :: newCores t (r.country :: seen) (start + 1)

/-- The numeric reading SQL aggregation gives a stored value: numbers
count as themselves; NULL is skipped by SUM, and non-numeric text without
a numeric prefix coerces to 0 under SQLite affinity (rows written by this
system hold numbers in the summed columns anyway). -/
def jvalNum : JVal → Rat
  | .num q => q
  | _ => 0

/-- `SELECT sum(col) FROM covid_records` over one data column, with the
`or 0` the endpoint applies to a NULL scalar. -/
def sumField (rows : List CovidRecord) (f : CleanedRecord → JVal) : Rat :=
  (rows.map (fun row => jvalNum (f row.vals))).sum

/-- The JSON body built by `get_statistics` (src/app.py lines 225-242). -/
structure StatsOut where
  total_records : Nat
  total_cases : Rat
  total_deaths : Rat
  total_recovered : Rat
  active_cases : Rat

/-- `get_statistics` (src/app.py lines 225-242): whole-store count and
sums, plus the derived `active_cases` computed from the three sums. -/
def get_statistics (db : DB) : StatsOut :=
  let tc := sumField db.rows (fun r => r.total_cases)
  let td := sumField db.rows (fun r => r.total_deaths)
  let tr := sumField db.rows (fun r => r.total_recovered)
  { total_records := db.rows.length
    total_cases := tc
    total_deaths := td
    total_recovered := tr
    active_cases := tc - td - tr }

/-- SQLite's ordering across storage classes: NULL sorts before numbers,
numbers before text, text before the rest.  Python booleans are stored as
the integers 0 and 1. -/
def JVal.rank : JVal → Nat
  | .null => 0
  | .bool _ => 1
  | .num _ => 1
  | .str _ => 2
  | .arr _ => 3
  | .obj _ => 3

/-- `Bool` to number, as SQLite stores Python booleans. -/
def boolNum (b : Bool) : Rat := if b then 1 else 0

/-- The comparator `ORDER BY col ASC` sorts by. -/
def jle (a b : JVal) : Bool :=
  if a.rank = b.rank then
    match a, b with
    | .num x, .num y => decide (x ≤ y)
    | .bool x, .num y => decide (boolNum x ≤ y)
    | .num x, .bool y => decide (x ≤ boolNum y)
    | .bool x, .bool y => decide (boolNum x ≤ boolNum y)
    | .str x, .str y => decide (x ≤ y)
    | _, _ => true
  else decide (a.rank < b.rank)

/-- The columns of `CovidRecord`, i.e. the attribute names a caller can
pass as `sort_by` or `metric` without `getattr` raising. -/
inductive SortField where
  | id | country | country_code | continent | population
  | total_cases | new_cases | total_deaths | new_deaths
  | total_recovered | active_cases | critical_cases
  | cases_per_million | deaths_per_million | total_tests
  | tests_per_million | date_recorded

/-- The stored value of a column in a row. -/
def keyOf : SortField → CovidRecord → JVal
  | .id => fun row => JVal.num row.id
  | .country => fun row => JVal.str row.vals.country
  | .country_code => fun row => JVal.str row.vals.country_code
  | .continent => fun row => row.vals.continent
  | .population => fun row => row.vals.population
  | .total_cases => fun row => row.vals.total_cases
  | .new_cases => fun row => row.vals.new_cases
  | .total_deaths => fun row => row.vals.total_deaths
  | .new_deaths => fun row => row.vals.new_deaths
  | .total_recovered => fun row => row.vals.total_recovered
  | .active_cases => fun row => row.vals.active_cases
  | .critical_cases => fun row => row.vals.critical_cases
  | .cases_per_million => fun row => row.vals.cases_per_million
  | .deaths_per_million => fun row => row.vals.deaths_per_million
  | .total_tests => fun row => row.vals.total_tests
  | .tests_per_million => fun row => row.vals.tests_per_million
  | .date_recorded => fun row => JVal.num row.date_recorded

/-- `col ILIKE '%needle%'`: case-insensitive substring match. -/
def strContains (hay needle : String) : Bool :=
  decide ((pyLower needle).data <:+: (pyLower hay).data)

/-- `col = 'text'` in SQL: only a text value can compare equal to a
string literal. -/
def jeqStr : JVal → String → Bool
  | .str s, t => s == t
  | _, _ => false

/-- Insert into a sorted list, before the first element the comparator
does not place strictly earlier.  Stable for ties. -/
def insertLe {α : Type} (le : α → α → Bool) (x : α) : List α → List α
  | [] => [x]
  | y :: ys => if le x y then x :: y :: ys else y :: insertLe le x ys

/-- A deterministic (stable) model of the row order `ORDER BY` produces;
SQLite fixes no tie order, so ties keep rowid order here. -/
def sortLe {α : Type} (le : α → α → Bool) : List α → List α
  | [] => []
  | x :: xs => insertLe le x (sortLe le xs)

/-- The filter stage of `get_records` (src/app.py lines 200-204): an
empty `country` string is falsy, so no country filter is applied; the
continent filter is applied unless the value is empty or the literal
`"all"`. -/
def filteredRows (db : DB) (country continent : String) : List CovidRecord :=
  let q1 := if country = "" then db.rows
            else db.rows.filter (fun row => strContains row.vals.country country)
  if continent = "" ∨ continent = "all" then q1
  else q1.filter (fun row => jeqStr row.vals.continent continent)

/-- The sort stage of `get_records` (src/app.py lines 206-210): the
descending branch is taken exactly when the order string equals
`"desc"`. -/
def sortedRows (rows : List CovidRecord) (sort_by : SortField) (order : String) :
    List CovidRecord :=
  if order = "desc" then sortLe (fun a b => jle (keyOf sort_by b) (keyOf sort_by a)) rows
  else sortLe (fun a b => jle (keyOf sort_by a) (keyOf sort_by b)) rows

/-- The JSON body built by `get_records` (src/app.py lines 215-221). -/
structure PageOut where
  records : List CovidRecord
  total : Nat
  page : Nat
  per_page : Nat
  pages : Nat

/-- `get_records` (src/app.py lines 185-223).  `order = none` models an
absent query parameter, defaulted to `"desc"` by `request.args.get`.
`paginate` slices rows `(page-1)*per_page .. page*per_page` of the sorted
query and reports the pre-slice total and `ceil(total / per_page)`
pages. -/
def get_records (db : DB) (page per_page : Nat) (country continent : String)
    (sort_by : SortField) (order : Option String) : PageOut :=
  let filtered := filteredRows db country continent
  let sorted := sortedRows filtered sort_by (order.getD "desc")
  let total := filtered.length
  { records := (sorted.drop ((page - 1) * per_page)).take per_page
    total := total
    page := page
    per_page := per_page
    pages := (total + per_page - 1) / per_page }

/-! ### Normalizer lemmas -/

/-- The accumulation loop keeps exactly the successful entries, in input
order. -/
theorem processList_eq_filterMap (l : List JVal) :
    processList l = l.filterMap processEntry := by
  induction l with
  | nil => rfl
  | cons e rest ih =>
    simp only [processList, List.filterMap_cons]
    cases processEntry e <;> simp [ih]

/-- Inversion: a successfully processed entry is an object whose country
value is a non-aggregate string and whose three nested groups resolve to
objects, and the output is the dictionary literal built from them. -/
theorem processEntry_obj_inv (kvs : List (String × JVal)) (r : CleanedRecord)
    (h : processEntry (JVal.obj kvs) = some r) :
    ∃ s cs ds ts,
      jget kvs "country" (JVal.str "Unknown") = JVal.str s ∧
      isAggName (JVal.str s) = false ∧
      jget kvs "cases" (JVal.obj []) = JVal.obj cs ∧
      jget kvs "deaths" (JVal.obj []) = JVal.obj ds ∧
      jget kvs "tests" (JVal.obj []) = JVal.obj ts ∧
      r = buildRecord kvs cs ds ts s := by
  have h' : processEntryObj kvs = some r := h
  unfold processEntryObj at h'
  dsimp only at h'
  split at h'
  · exact absurd h' (by simp)
  · next hAgg =>
    split at h'
    · next s cs ds ts hc h1 h2 h3 =>
      refine ⟨s, cs, ds, ts, hc, ?_, h1, h2, h3, ?_⟩
      · rw [hc] at hAgg
        simpa using hAgg
      · injection h' with h'
        exact h'.symm
    · exact absurd h' (by simp)

/-- The twelve numeric outputs of a cleaned record, in the order the
dictionary literal assigns them. -/
def numFields (r : CleanedRecord) : List JVal :=
  [r.population, r.total_cases, r.new_cases, r.total_deaths, r.new_deaths,
   r.total_recovered, r.active_cases, r.critical_cases, r.cases_per_million,
   r.deaths_per_million, r.total_tests, r.tests_per_million]

/-- The object a nested group key resolves to (`record.get(g, {})`),
taken as an association list (empty for the default). -/
def groupObj (kvs : List (String × JVal)) (g : String) : List (String × JVal) :=
  match jget kvs g (JVal.obj []) with
  | .obj o => o
  | _ => []

/-- The raw source each numeric output is read from, aligned with
`numFields`. -/
def numSources (kvs : List (String × JVal)) : List (Option JVal) :=
  [kvs.lookup "population",
   (groupObj kvs "cases").lookup "total",
   (groupObj kvs "cases").lookup "new",
   (groupObj kvs "deaths").lookup "total",
   (groupObj kvs "deaths").lookup "new",
   (groupObj kvs "cases").lookup "recovered",
   (groupObj kvs "cases").lookup "active",
   (groupObj kvs "cases").lookup "critical",
   (groupObj kvs "cases").lookup "1M_pop",
   (groupObj kvs "deaths").lookup "1M_pop",
   (groupObj kvs "tests").lookup "total",
   (groupObj kvs "tests").lookup "1M_pop"]

/-- How `x or 0` treats a looked-up value: absent and null default to 0,
a number passes through unchanged, and the result is never null. -/
theorem jor_lookup_cases (o : Option JVal) :
    ((o = none ∨ o = some JVal.null) → jor (o.getD JVal.null) (JVal.num 0) = JVal.num 0) ∧
    jor (o.getD JVal.null) (JVal.num 0) ≠ JVal.null ∧
    (∀ q : Rat, o = some (JVal.num q) → jor (o.getD JVal.null) (JVal.num 0) = JVal.num q) := by
  refine ⟨?_, ?_, ?_⟩
  · rintro (h | h) <;> subst h <;> rfl
  · cases o with
    | none => simp [jor, truthy]
    | some v =>
      cases v <;> simp only [Option.getD_some, jor, truthy] <;> split <;> simp_all
  · rintro q rfl
    rcases eq_or_ne q 0 with h | h <;> simp [jor, truthy, h]

/-- C4: for every raw payload that is null or empty or lacks the
top-level `response` list field, the normalizer returns the empty
sequence (it does not raise). -/
theorem c4_missing_list_yields_empty (raw : Option (List (String × JVal)))
    (h : raw = none ∨ raw = some [] ∨
         ∃ kvs, raw = some kvs ∧ kvs.lookup "response" = none) :
    clean_and_transform_data raw = some [] := by
  rcases h with h | h | ⟨kvs, h, hk⟩
  · subst h; rfl
  · subst h; rfl
  · subst h
    cases kvs with
    | nil => rfl
    | cons p t => simp [clean_and_transform_data, hk]

/-- Witness for C4 at a concrete payload lacking the `response` field. -/
theorem c4_witness :
    ((some [("status", JVal.num 1)] : Option (List (String × JVal))) = none ∨
     (some [("status", JVal.num 1)] : Option (List (String × JVal))) = some [] ∨
     ∃ kvs, (some [("status", JVal.num 1)] : Option (List (String × JVal))) = some kvs ∧
       kvs.lookup "response" = none) ∧
    clean_and_transform_data (some [("status", JVal.num 1)]) = some [] :=
  ⟨Or.inr (Or.inr ⟨[("status", JVal.num 1)], rfl, rfl⟩),
   c4_missing_list_yields_empty _ (Or.inr (Or.inr ⟨[("status", JVal.num 1)], rfl, rfl⟩))⟩

/-- C5: the normalizer output is exactly the in-order image of the first
500 entries under per-entry processing — entries past the 500th and
entries whose processing fails drop out silently — and any entry whose
resolved country name is the aggregate `"All"` or the placeholder
`"Unknown"` is skipped. -/
theorem c5_cap_order_skip (kvs : List (String × JVal)) (entries : List JVal)
    (h : kvs.lookup "response" = some (JVal.arr entries)) :
    clean_and_transform_data (some kvs) =
      some ((entries.take 500).filterMap processEntry) ∧
    ∀ ekvs : List (String × JVal),
      (jget ekvs "country" (JVal.str "Unknown") = JVal.str "All" ∨
       jget ekvs "country" (JVal.str "Unknown") = JVal.str "Unknown") →
      processEntry (JVal.obj ekvs) = none := by
  constructor
  · cases kvs with
    | nil => simp at h
    | cons p t => simp [clean_and_transform_data, h, processList_eq_filterMap]
  · intro ekvs hc
    show processEntryObj ekvs = none
    unfold processEntryObj
    dsimp only
    rcases hc with hc | hc <;> rw [hc] <;> rfl

/-- Witness for C5 at a concrete payload: an aggregate entry, a real
country and a malformed entry. -/
theorem c5_witness :
    ([("response", JVal.arr
        [JVal.obj [("country", JVal.str "All")],
         JVal.obj [("country", JVal.str "Austria")],
         JVal.num 3])].lookup "response" = some (JVal.arr
        [JVal.obj [("country", JVal.str "All")],
         JVal.obj [("country", JVal.str "Austria")],
         JVal.num 3])) ∧
    (clean_and_transform_data (some [("response", JVal.arr
        [JVal.obj [("country", JVal.str "All")],
         JVal.obj [("country", JVal.str "Austria")],
         JVal.num 3])]) =
      some (([JVal.obj [("country", JVal.str "All")],
              JVal.obj [("country", JVal.str "Austria")],
              JVal.num 3].take 500).filterMap processEntry) ∧
     ∀ ekvs : List (String × JVal),
       (jget ekvs "country" (JVal.str "Unknown") = JVal.str "All" ∨
        jget ekvs "country" (JVal.str "Unknown") = JVal.str "Unknown") →
       processEntry (JVal.obj ekvs) = none) ∧
    ([JVal.obj [("country", JVal.str "All")],
      JVal.obj [("country", JVal.str "Austria")],
      JVal.num 3].take 500).filterMap processEntry =
      [buildRecord [("country", JVal.str "Austria")] [] [] [] "Austria"] :=
  ⟨rfl, c5_cap_order_skip _ _ rfl, rfl⟩

/-- C7: for every processed entry the stored country is the trimmed raw
name and the country code is the first three raw (untrimmed) characters
upper-cased; an empty raw country yields an empty code. -/
theorem c7_code_from_raw_untrimmed (kvs : List (String × JVal)) (s : String)
    (r : CleanedRecord)
    (hs : kvs.lookup "country" = some (JVal.str s))
    (h : processEntry (JVal.obj kvs) = some r) :
    r.country = pyStrip s ∧ r.country_code = pyUpper (pyTake s 3) ∧
    (s = "" → r.country_code = "") := by
  obtain ⟨s', cs, ds, ts, hc, hA, h1, h2, h3, hr⟩ := processEntry_obj_inv kvs r h
  have hss : s = s' := by simpa [jget, hs] using hc
  subst hss
  subst hr
  refine ⟨rfl, rfl, ?_⟩
  intro he
  subst he
  rfl

/-- Witness for C7 at a concrete entry with mixed case and surrounding
blanks. -/
theorem c7_witness :
    ([("country", JVal.str " el Salvador ")].lookup "country" =
       some (JVal.str " el Salvador ") ∧
     processEntry (JVal.obj [("country", JVal.str " el Salvador ")]) =
       some (buildRecord [("country", JVal.str " el Salvador ")] [] [] [] " el Salvador ")) ∧
    ((buildRecord [("country", JVal.str " el Salvador ")] [] [] [] " el Salvador ").country =
       pyStrip " el Salvador " ∧
     (buildRecord [("country", JVal.str " el Salvador ")] [] [] [] " el Salvador ").country_code =
       pyUpper (pyTake " el Salvador " 3) ∧
     (" el Salvador " = "" →
       (buildRecord [("country", JVal.str " el Salvador ")] [] [] [] " el Salvador ").country_code = "")) ∧
    pyStrip " el Salvador " = "el Salvador" ∧
    pyUpper (pyTake " el Salvador " 3) = " EL" :=
  ⟨⟨rfl, rfl⟩,
   c7_code_from_raw_untrimmed [("country", JVal.str " el Salvador ")] " el Salvador "
     (buildRecord [("country", JVal.str " el Salvador ")] [] [] [] " el Salvador ") rfl rfl,
   rfl, rfl⟩

/-- C6 as stated is false: a negative input number passes through the
`or 0` defaulting untouched, so the produced field is a negative number.
Concretely, an entry with `population = -5` yields a record whose
`population` is not a non-negative number. -/
theorem c6_counterexample :
    processList [JVal.obj [("country", JVal.str "Xland"), ("population", JVal.num (-5))]] =
      [buildRecord [("country", JVal.str "Xland"), ("population", JVal.num (-5))] [] [] [] "Xland"] ∧
    ¬ (∀ f ∈ numFields (buildRecord
          [("country", JVal.str "Xland"), ("population", JVal.num (-5))] [] [] [] "Xland"),
        ∃ q : Rat, 0 ≤ q ∧ f = JVal.num q) := by
  refine ⟨rfl, ?_⟩
  intro hall
  have hmem : (buildRecord
      [("country", JVal.str "Xland"), ("population", JVal.num (-5))] [] [] [] "Xland").population ∈
      numFields (buildRecord
        [("country", JVal.str "Xland"), ("population", JVal.num (-5))] [] [] [] "Xland") := by
    simp [numFields]
  obtain ⟨q, hq, heq⟩ := hall _ hmem
  have hpop : (buildRecord
      [("country", JVal.str "Xland"), ("population", JVal.num (-5))] [] [] [] "Xland").population =
      JVal.num (-5) := rfl
  rw [hpop] at heq
  injection heq with heq
  subst heq
  exact absurd hq (by decide)

/-- C6 (amended): every numeric field of a processed record is non-null;
a missing or null source reads as 0, and a numeric source value passes
through unchanged — so fields are non-negative exactly when the present
numeric inputs are. -/
theorem c6_amended_defaults (kvs : List (String × JVal)) (r : CleanedRecord)
    (h : processEntry (JVal.obj kvs) = some r) :
    List.Forall₂ (fun (src : Option JVal) (f : JVal) =>
        ((src = none ∨ src = some JVal.null) → f = JVal.num 0) ∧
        f ≠ JVal.null ∧
        (∀ q : Rat, src = some (JVal.num q) → f = JVal.num q))
      (numSources kvs) (numFields r) := by
  obtain ⟨s, cs, ds, ts, hc, hA, h1, h2, h3, hr⟩ := processEntry_obj_inv kvs r h
  subst hr
  have hcs : groupObj kvs "cases" = cs := by simp [groupObj, h1]
  have hds : groupObj kvs "deaths" = ds := by simp [groupObj, h2]
  have hts : groupObj kvs "tests" = ts := by simp [groupObj, h3]
  simp only [numSources, numFields, buildRecord, hcs, hds, hts, jget]
  refine List.Forall₂.cons (jor_lookup_cases _) ?_
  refine List.Forall₂.cons (jor_lookup_cases _) ?_
  refine List.Forall₂.cons (jor_lookup_cases _) ?_
  refine List.Forall₂.cons (jor_lookup_cases _) ?_
  refine List.Forall₂.cons (jor_lookup_cases _) ?_
  refine List.Forall₂.cons (jor_lookup_cases _) ?_
  refine List.Forall₂.cons (jor_lookup_cases _) ?_
  refine List.Forall₂.cons (jor_lookup_cases _) ?_
  refine List.Forall₂.cons (jor_lookup_cases _) ?_
  refine List.Forall₂.cons (jor_lookup_cases _) ?_
  refine List.Forall₂.cons (jor_lookup_cases _) ?_
  refine List.Forall₂.cons (jor_lookup_cases _) ?_
  exact List.Forall₂.nil

/-- Witness for the amended C6 at a concrete entry mixing a null source,
a present numeric source and absent sources. -/
theorem c6_witness :
    processEntry (JVal.obj [("country", JVal.str "Yland"), ("population", JVal.null),
        ("cases", JVal.obj [("total", JVal.num 7)])]) =
      some (buildRecord [("country", JVal.str "Yland"), ("population", JVal.null),
        ("cases", JVal.obj [("total", JVal.num 7)])] [("total", JVal.num 7)] [] [] "Yland") ∧
    List.Forall₂ (fun (src : Option JVal) (f : JVal) =>
        ((src = none ∨ src = some JVal.null) → f = JVal.num 0) ∧
        f ≠ JVal.null ∧
        (∀ q : Rat, src = some (JVal.num q) → f = JVal.num q))
      (numSources [("country", JVal.str "Yland"), ("population", JVal.null),
        ("cases", JVal.obj [("total", JVal.num 7)])])
      (numFields (buildRecord [("country", JVal.str "Yland"), ("population", JVal.null),
        ("cases", JVal.obj [("total", JVal.num 7)])] [("total", JVal.num 7)] [] [] "Yland")) :=
  ⟨rfl, c6_amended_defaults _ _ rfl⟩

/-! ### Reconciler lemmas -/

/-- The lookup's boolean succeeds exactly when the country is stored. -/
theorem any_country_eq_mem (rows : List CovidRecord) (c : String) :
    (rows.any (fun row => row.country == c)) = true ↔ c ∈ rowCountries rows := by
  simp [rowCountries, List.any_eq_true, List.mem_map]

/-- Updating a row in place never changes the stored countries. -/
theorem updateFirst_countries (now : Nat) (r : CleanedRecord) (rows : List CovidRecord) :
    rowCountries (updateFirst now r rows) = rowCountries rows := by
  induction rows with
  | nil => rfl
  | cons row rest ih =>
    by_cases h : row.country = r.country
    · simp only [updateFirst, if_pos h, rowCountries, List.map_cons]
      refine congrArg₂ _ ?_ rfl
      exact h.symm
    · simp only [updateFirst, if_neg h, rowCountries, List.map_cons]
      exact congrArg _ ih

/-- When the country is already stored, the upsert is the in-place
update. -/
theorem upsert_mem_case (now : Nat) (db : DB) (r : CleanedRecord)
    (h : r.country ∈ rowCountries db.rows) :
    upsert now db r = { db with rows := updateFirst now r db.rows } := by
  unfold upsert
  rw [if_pos ((any_country_eq_mem _ _).mpr h)]

/-- When the country is absent, the upsert appends a fresh row. -/
theorem upsert_not_mem_case (now : Nat) (db : DB) (r : CleanedRecord)
    (h : r.country ∉ rowCountries db.rows) :
    upsert now db r =
      { rows := db.rows ++ [⟨db.nextId, r, now⟩], nextId := db.nextId + 1 } := by
  unfold upsert
  rw [if_neg (fun hc => h ((any_country_eq_mem _ _).mp hc))]

/-- One upsert preserves country uniqueness. -/
theorem upsert_nodup (now : Nat) (db : DB) (r : CleanedRecord)
    (h : (rowCountries db.rows).Nodup) :
    (rowCountries (upsert now db r).rows).Nodup := by
  by_cases hm : r.country ∈ rowCountries db.rows
  · rw [upsert_mem_case now db r hm]
    simpa [updateFirst_countries] using h
  · rw [upsert_not_mem_case now db r hm]
    have hr : rowCountries (db.rows ++ [⟨db.nextId, r, now⟩]) =
        rowCountries db.rows ++ [r.country] := by
      simp [rowCountries, CovidRecord.country]
    rw [hr]
    simp [List.nodup_append, h, hm]

/-- A whole loop preserves country uniqueness. -/
theorem applyAll_nodup (now : Nat) (rs : List CleanedRecord) (db : DB)
    (h : (rowCountries db.rows).Nodup) :
    (rowCountries (applyAll now db rs).rows).Nodup := by
  induction rs generalizing db with
  | nil => simpa [applyAll] using h
  | cons r t ih => exact ih _ (upsert_nodup now db r h)

/-- Without a storage failure the session commits the loop's result and
reports one processed record per batch record. -/
theorem storeGo_none (base : DB) (now : Nat) (rs : List CleanedRecord)
    (pending : DB) (count step : Nat) :
    storeGo base now none pending count step rs =
      (applyAll now pending rs, count + rs.length) := by
  induction rs generalizing pending count step with
  | nil => simp [storeGo, applyAll]
  | cons r t ih =>
    show (if (none : Option Nat) = some step then (base, 0)
          else storeGo base now none (upsert now pending r) (count + 1) (step + 1) t) = _
    rw [if_neg (by simp)]
    rw [ih]
    simp [applyAll]
    omega

/-- A storage failure at any step of the invocation rolls the store back
to the committed base and reports zero. -/
theorem storeGo_fail (base : DB) (now : Nat) (k : Nat) (rs : List CleanedRecord)
    (pending : DB) (count step : Nat) (h1 : step ≤ k) (h2 : k ≤ step + rs.length) :
    storeGo base now (some k) pending count step rs = (base, 0) := by
  induction rs generalizing pending count step with
  | nil =>
    have hk : k = step := by simp at h2; omega
    simp [storeGo, hk]
  | cons r t ih =>
    by_cases hk : k = step
    · simp [storeGo, hk]
    · show (if (some k : Option Nat) = some step then (base, 0)
            else storeGo base now (some k) (upsert now pending r) (count + 1) (step + 1) t) = _
      rw [if_neg (by simpa using hk)]
      have h2' : k ≤ step + 1 + t.length := by simp at h2; omega
      exact ih _ _ _ (by omega) h2'

/-- A failure index past the last step never fires: the invocation
behaves like the failure-free one. -/
theorem storeGo_late (base : DB) (now : Nat) (k : Nat) (rs : List CleanedRecord)
    (pending : DB) (count step : Nat) (h : step + rs.length < k) :
    storeGo base now (some k) pending count step rs =
      (applyAll now pending rs, count + rs.length) := by
  induction rs generalizing pending count step with
  | nil =>
    have hk : k ≠ step := by simp at h; omega
    simp [storeGo, applyAll, hk]
  | cons r t ih =>
    have hk : k ≠ step := by simp at h; omega
    show (if (some k : Option Nat) = some step then (base, 0)
          else storeGo base now (some k) (upsert now pending r) (count + 1) (step + 1) t) = _
    rw [if_neg (by simpa using hk)]
    have h' : step + 1 + t.length < k := by simp at h; omega
    rw [ih _ _ _ h']
    simp [applyAll]
    omega

/-- `store_data_in_db` on the success path. -/
theorem store_success (now : Nat) (records : List CleanedRecord) (db : DB) :
    store_data_in_db now none records db = (applyAll now db records, records.length) := by
  rw [store_data_in_db, storeGo_none]
  simp

/-- `store_data_in_db` when some storage operation of the invocation
raises. -/
theorem store_fail (now k : Nat) (records : List CleanedRecord) (db : DB)
    (h : k ≤ records.length) :
    store_data_in_db now (some k) records db = (db, 0) :=
  storeGo_fail db now k records db 0 0 (Nat.zero_le k) (by simpa using h)

/-- A record not carrying the country leaves the last-record lookup
unchanged. -/
theorem lastWith_cons_ne (r : CleanedRecord) (t : List CleanedRecord) (c : String)
    (h : r.country ≠ c) : lastWith c (r :: t) = lastWith c t := by
  show (match lastWith c t with
        | some x => some x
        | none => if r.country = c then some r else none) = lastWith c t
  cases hl : lastWith c t <;> simp [h]

/-- Prepending a record with the looked-up country: later records still
win, the new record is the fallback. -/
theorem lastWith_cons_self (r : CleanedRecord) (t : List CleanedRecord) :
    lastWith r.country (r :: t) = some ((lastWith r.country t).getD r) := by
  show (match lastWith r.country t with
        | some x => some x
        | none => if r.country = r.country then some r else none) =
       some ((lastWith r.country t).getD r)
  cases hl : lastWith r.country t <;> simp

/-- A found last record survives prepending. -/
theorem lastWith_cons_of_some (r : CleanedRecord) (t : List CleanedRecord) (c : String)
    (x : CleanedRecord) (h : lastWith c t = some x) : lastWith c (r :: t) = some x := by
  show (match lastWith c t with
        | some x => some x
        | none => if r.country = c then some r else none) = some x
  rw [h]

/-- The last record with a country carries that country. -/
theorem lastWith_country (c : String) (rs : List CleanedRecord) (x : CleanedRecord)
    (h : lastWith c rs = some x) : x.country = c := by
  induction rs with
  | nil => cases h
  | cons r t ih =>
    unfold lastWith at h
    cases hl : lastWith c t with
    | some y =>
      rw [hl] at h
      injection h with h
      subst h
      exact ih hl
    | none =>
      rw [hl] at h
      by_cases hc : r.country = c
      · rw [if_pos hc] at h
        injection h with h
        exact h ▸ hc
      · rw [if_neg hc] at h
        cases h

/-- Overwriting is unaffected by a batch record of another country. -/
theorem overwriteCore_cons_ne (r : CleanedRecord) (t : List CleanedRecord)
    (p : Nat × CleanedRecord) (h : p.2.country ≠ r.country) :
    overwriteCore (r :: t) p = overwriteCore t p := by
  unfold overwriteCore
  rw [lastWith_cons_ne r t p.2.country (Ne.symm h)]

/-- Overwriting a pair that already holds some record's fields. -/
theorem overwriteCore_of_vals (t : List CleanedRecord) (i : Nat) (r : CleanedRecord) :
    overwriteCore t (i, r) = (i, (lastWith r.country t).getD r) := by
  unfold overwriteCore
  cases hl : lastWith r.country t <;> simp [hl]

/-- Overwriting a pair whose country the head record carries. -/
theorem overwriteCore_head (r : CleanedRecord) (t : List CleanedRecord)
    (p : Nat × CleanedRecord) (h : p.2.country = r.country) :
    overwriteCore (r :: t) p = (p.1, (lastWith r.country t).getD r) := by
  unfold overwriteCore
  rw [h, lastWith_cons_self]

/-- Overwriting twice is overwriting once. -/
theorem overwriteCore_idem (rs : List CleanedRecord) (p : Nat × CleanedRecord) :
    overwriteCore rs (overwriteCore rs p) = overwriteCore rs p := by
  unfold overwriteCore
  cases hl : lastWith p.2.country rs with
  | none => simp [hl]
  | some x =>
    have hx : x.country = p.2.country := lastWith_country _ _ _ hl
    simp [hx, hl]

/-- The appended-row description only depends on which countries have
been seen, not on the order they were seen in. -/
theorem newCores_seen_congr (rs : List CleanedRecord) (s1 s2 : List String) (start : Nat)
    (h : ∀ c, c ∈ s1 ↔ c ∈ s2) : newCores rs s1 start = newCores rs s2 start := by
  induction rs generalizing s1 s2 start with
  | nil => rfl
  | cons r t ih =>
    by_cases hm : r.country ∈ s1
    · rw [newCores, newCores, if_pos hm, if_pos ((h _).mp hm)]
      exact ih s1 s2 start h
    · rw [newCores, newCores, if_neg hm, if_neg (fun hc => hm ((h _).mpr hc))]
      refine congrArg _ (ih _ _ _ ?_)
      intro c
      simp [h c]

/-- No rows are appended when every batch country is already seen. -/
theorem newCores_eq_nil (rs : List CleanedRecord) (seen : List String) (start : Nat)
    (h : ∀ r ∈ rs, r.country ∈ seen) : newCores rs seen start = [] := by
  induction rs generalizing seen start with
  | nil => rfl
  | cons r t ih =>
    rw [newCores, if_pos (h r (by simp))]
    exact ih _ _ (fun x hx => h x (by simp [hx]))

/-- Every appended row holds the fields of the last batch record with
its country. -/
theorem newCores_mem_last (rs : List CleanedRecord) (seen : List String) (start : Nat)
    (p : Nat × CleanedRecord) (h : p ∈ newCores rs seen start) :
    lastWith p.2.country rs = some p.2 := by
  induction rs generalizing seen start with
  | nil => cases h
  | cons r t ih =>
    rw [newCores] at h
    by_cases hm : r.country ∈ seen
    · rw [if_pos hm] at h
      exact lastWith_cons_of_some r t _ _ (ih _ _ h)
    · rw [if_neg hm] at h
      rcases List.mem_cons.mp h with hp | hp
      · subst hp
        cases hl : lastWith r.country t with
        | none =>
          simp only [hl, Option.getD_none]
          rw [lastWith_cons_self, hl]
          simp
        | some y =>
          have hy : y.country = r.country := lastWith_country _ _ _ hl
          simp only [hl, Option.getD_some]
          rw [hy, lastWith_cons_self, hl]
          simp
      · exact lastWith_cons_of_some r t _ _ (ih _ _ hp)

/-- Pointwise effect of the in-place update on the row description, for
stores with unique countries. -/
theorem updateFirst_overwrite (now : Nat) (r : CleanedRecord) (t : List CleanedRecord)
    (rows : List CovidRecord) (h : (rowCountries rows).Nodup) :
    (updateFirst now r rows).map (fun row => overwriteCore t row.core) =
      rows.map (fun row => overwriteCore (r :: t) row.core) := by
  induction rows with
  | nil => rfl
  | cons row rest ih =>
    have hnodup : (rowCountries rest).Nodup := by
      simpa [rowCountries] using h.of_cons
    by_cases hc : row.country = r.country
    · rw [updateFirst, if_pos hc]
      simp only [List.map_cons]
      refine congrArg₂ _ ?_ ?_
      · show overwriteCore t (row.id, r) = overwriteCore (r :: t) row.core
        rw [overwriteCore_of_vals,
          overwriteCore_head r t row.core (by simpa [CovidRecord.core] using hc)]
        rfl
      · have hhead : row.country ∉ rowCountries rest := by
          have h' : (CovidRecord.country row :: rowCountries rest).Nodup := by
            simpa [rowCountries] using h
          exact (List.nodup_cons.mp h').1
        have hrest : ∀ row' ∈ rest, row'.country ≠ r.country := by
          intro row' hrow' he
          refine hhead ?_
          rw [hc, ← he]
          exact List.mem_map_of_mem _ hrow'
        refine List.map_congr_left (fun row' hrow' => ?_)
        exact (overwriteCore_cons_ne r t row'.core (hrest row' hrow')).symm
    · rw [updateFirst, if_neg hc]
      simp only [List.map_cons]
      refine congrArg₂ _ ?_ (ih hnodup)
      exact (overwriteCore_cons_ne r t row.core hc).symm

/-- Full description of one failure-free invocation on a store with
unique countries: existing rows are rewritten in place — ids kept, fields
replaced by the batch's last record with the row's country — and one
fresh row per new batch country is appended with sequential ids. -/
theorem applyAll_char (now : Nat) (rs : List CleanedRecord) (db : DB)
    (h : (rowCountries db.rows).Nodup) :
    (applyAll now db rs).rows.map CovidRecord.core =
      db.rows.map (fun row => overwriteCore rs row.core) ++
        newCores rs (rowCountries db.rows) db.nextId ∧
    (applyAll now db rs).nextId =
      db.nextId + (newCores rs (rowCountries db.rows) db.nextId).length := by
  induction rs generalizing db with
  | nil =>
    constructor
    · show db.rows.map CovidRecord.core =
        db.rows.map (fun row => overwriteCore [] row.core) ++
          newCores [] (rowCountries db.rows) db.nextId
      rw [show newCores [] (rowCountries db.rows) db.nextId = [] from rfl, List.append_nil]
      exact List.map_congr_left (fun row _ => rfl)
    · simp [applyAll, newCores]
  | cons r t ih =>
    by_cases hm : r.country ∈ rowCountries db.rows
    · have e1 : applyAll now db (r :: t) =
          applyAll now { db with rows := updateFirst now r db.rows } t := by
        rw [applyAll, upsert_mem_case now db r hm]
      have hcountries : rowCountries (updateFirst now r db.rows) = rowCountries db.rows :=
        updateFirst_countries now r db.rows
      have hnodup' : (rowCountries (updateFirst now r db.rows)).Nodup := by
        rw [hcountries]
        exact h
      obtain ⟨ihr, ihn⟩ := ih { db with rows := updateFirst now r db.rows } hnodup'
      constructor
      · rw [e1, ihr]
        show (updateFirst now r db.rows).map (fun row => overwriteCore t row.core) ++
            newCores t (rowCountries (updateFirst now r db.rows)) db.nextId = _
        rw [hcountries, updateFirst_overwrite now r t db.rows h, newCores, if_pos hm]
      · rw [e1, ihn]
        show db.nextId + (newCores t (rowCountries (updateFirst now r db.rows)) db.nextId).length = _
        rw [hcountries, newCores, if_pos hm]
    · have e1 : applyAll now db (r :: t) =
          applyAll now { rows := db.rows ++ [⟨db.nextId, r, now⟩], nextId := db.nextId + 1 } t := by
        rw [applyAll, upsert_not_mem_case now db r hm]
      have hcountries : rowCountries (db.rows ++ [⟨db.nextId, r, now⟩]) =
          rowCountries db.rows ++ [r.country] := by
        simp [rowCountries, CovidRecord.country]
      have hnodup' : (rowCountries (db.rows ++ [⟨db.nextId, r, now⟩])).Nodup := by
        rw [hcountries]
        simp [List.nodup_append, h, hm]
      obtain ⟨ihr, ihn⟩ :=
        ih { rows := db.rows ++ [⟨db.nextId, r, now⟩], nextId := db.nextId + 1 } hnodup'
      have hseen : newCores t (rowCountries db.rows ++ [r.country]) (db.nextId + 1) =
          newCores t (r.country :: rowCountries db.rows) (db.nextId + 1) :=
        newCores_seen_congr _ _ _ _ (by intro c; simp [or_comm])
      have hmapeq : db.rows.map (fun row => overwriteCore t row.core) =
          db.rows.map (fun row => overwriteCore (r :: t) row.core) := by
        refine List.map_congr_left (fun row hrow => ?_)
        have hne : row.country ≠ r.country := fun he => hm (he ▸ List.mem_map_of_mem _ hrow)
        exact (overwriteCore_cons_ne r t row.core hne).symm
      constructor
      · rw [e1, ihr]
        show (db.rows ++ [(⟨db.nextId, r, now⟩ : CovidRecord)]).map
            (fun (row : CovidRecord) => overwriteCore t row.core) ++
            newCores t (rowCountries (db.rows ++ [⟨db.nextId, r, now⟩])) (db.nextId + 1) = _
        rw [hcountries, hseen, newCores, if_neg hm]
        simp only [List.map_append, List.map_cons, List.map_nil]
        rw [List.append_assoc, hmapeq]
        refine congrArg _ ?_
        show (overwriteCore t (⟨db.nextId, r, now⟩ : CovidRecord).core) ::
            newCores t (r.country :: rowCountries db.rows) (db.nextId + 1) = _
        rw [show (⟨db.nextId, r, now⟩ : CovidRecord).core = (db.nextId, r) from rfl,
          overwriteCore_of_vals]
      · rw [e1, ihn]
        show db.nextId + 1 +
            (newCores t (rowCountries (db.rows ++ [⟨db.nextId, r, now⟩])) (db.nextId + 1)).length = _
        rw [hcountries, hseen, newCores, if_neg hm]
        simp only [List.length_cons]
        omega

/-- An upsert makes the record's country present. -/
theorem upsert_mem_country (now : Nat) (db : DB) (r : CleanedRecord) :
    r.country ∈ rowCountries (upsert now db r).rows := by
  by_cases hm : r.country ∈ rowCountries db.rows
  · rw [upsert_mem_case now db r hm]
    show r.country ∈ rowCountries (updateFirst now r db.rows)
    rw [updateFirst_countries]
    exact hm
  · rw [upsert_not_mem_case now db r hm]
    show r.country ∈ rowCountries (db.rows ++ [⟨db.nextId, r, now⟩])
    simp [rowCountries, CovidRecord.country]

/-- An upsert never removes a stored country. -/
theorem upsert_mono (now : Nat) (db : DB) (r : CleanedRecord) (c : String)
    (h : c ∈ rowCountries db.rows) : c ∈ rowCountries (upsert now db r).rows := by
  by_cases hm : r.country ∈ rowCountries db.rows
  · rw [upsert_mem_case now db r hm]
    show c ∈ rowCountries (updateFirst now r db.rows)
    rw [updateFirst_countries]
    exact h
  · rw [upsert_not_mem_case now db r hm]
    show c ∈ rowCountries (db.rows ++ [⟨db.nextId, r, now⟩])
    simp [rowCountries] at h ⊢
    exact Or.inl h

/-- A whole loop never removes a stored country. -/
theorem applyAll_mono (now : Nat) (rs : List CleanedRecord) (db : DB) (c : String)
    (h : c ∈ rowCountries db.rows) : c ∈ rowCountries (applyAll now db rs).rows := by
  induction rs generalizing db with
  | nil => exact h
  | cons r t ih => exact ih _ (upsert_mono now db r c h)

/-- After a loop, every batch country is stored. -/
theorem applyAll_batch_mem (now : Nat) (rs : List CleanedRecord) (db : DB) :
    ∀ r ∈ rs, r.country ∈ rowCountries (applyAll now db rs).rows := by
  induction rs generalizing db with
  | nil => intro r hr; cases hr
  | cons r0 t ih =>
    intro r hr
    rcases List.mem_cons.mp hr with hr | hr
    · subst hr
      exact applyAll_mono now t (upsert now db r) r.country (upsert_mem_country now db r)
    · exact ih (upsert now db r0) r hr

/-- Rows left by a failure-free run absorb a second run of the same
batch: only timestamps can change. -/
theorem applyAll_fix_rows (now now2 : Nat) (rs : List CleanedRecord) (db : DB)
    (h : (rowCountries db.rows).Nodup) :
    (applyAll now2 (applyAll now db rs) rs).rows.map CovidRecord.core =
      (applyAll now db rs).rows.map CovidRecord.core ∧
    (applyAll now2 (applyAll now db rs) rs).nextId = (applyAll now db rs).nextId := by
  have h1 : (rowCountries (applyAll now db rs).rows).Nodup := applyAll_nodup now rs db h
  obtain ⟨hr0, _⟩ := applyAll_char now rs db h
  obtain ⟨hr1, hn1⟩ := applyAll_char now2 rs (applyAll now db rs) h1
  have hnil : newCores rs (rowCountries (applyAll now db rs).rows)
      (applyAll now db rs).nextId = [] :=
    newCores_eq_nil _ _ _ (applyAll_batch_mem now rs db)
  constructor
  · rw [hr1, hnil, List.append_nil]
    refine List.map_congr_left (fun row hrow => ?_)
    have hcore : row.core ∈ (applyAll now db rs).rows.map CovidRecord.core :=
      List.mem_map_of_mem _ hrow
    rw [hr0] at hcore
    rcases List.mem_append.mp hcore with hc | hc
    · obtain ⟨row0, _, heq⟩ := List.mem_map.mp hc
      rw [← heq, overwriteCore_idem]
    · have hlast := newCores_mem_last rs _ _ _ hc
      show overwriteCore rs row.core = row.core
      unfold overwriteCore
      rw [hlast]
  · rw [hn1, hnil]
    simp

/-- C1: running the reconciler twice on the same normalized batch leaves
the store with the same rows — ids and all data fields, timestamps
aside — as running it once: the second run only updates in place,
allocates no ids and changes no count. -/
theorem c1_idempotent (now1 now2 : Nat) (records : List CleanedRecord) (db : DB)
    (h : (rowCountries db.rows).Nodup) :
    (store_data_in_db now2 none records (store_data_in_db now1 none records db).1).1.rows.map
        CovidRecord.core =
      (store_data_in_db now1 none records db).1.rows.map CovidRecord.core ∧
    (store_data_in_db now2 none records (store_data_in_db now1 none records db).1).1.rows.length =
      (store_data_in_db now1 none records db).1.rows.length ∧
    (store_data_in_db now2 none records (store_data_in_db now1 none records db).1).1.nextId =
      (store_data_in_db now1 none records db).1.nextId ∧
    (store_data_in_db now2 none records (store_data_in_db now1 none records db).1).2 =
      (store_data_in_db now1 none records db).2 := by
  simp only [store_success]
  obtain ⟨hrows, hnext⟩ := applyAll_fix_rows now1 now2 records db h
  refine ⟨hrows, ?_, hnext, trivial⟩
  simpa using congrArg List.length hrows

/-- C2: a storage failure at any step makes the invocation roll the
store back unchanged and report zero; a failure-free invocation commits
the loop's result and reports one processed record per batch record (in
particular, the batch length for distinct-country batches). -/
theorem c2_rollback_or_count (now : Nat) (records : List CleanedRecord) (db : DB)
    (k : Nat) :
    (k ≤ records.length → store_data_in_db now (some k) records db = (db, 0)) ∧
    store_data_in_db now none records db = (applyAll now db records, records.length) :=
  ⟨fun h => store_fail now k records db h, store_success now records db⟩

/-- C3: starting from a store with at most one row per country, any
invocation — batches with duplicate countries and failing invocations
included — leaves at most one row per country. -/
theorem c3_unique_invariant (now : Nat) (failAt : Option Nat)
    (records : List CleanedRecord) (db : DB) (h : (rowCountries db.rows).Nodup) :
    (rowCountries (store_data_in_db now failAt records db).1.rows).Nodup := by
  cases failAt with
  | none =>
    rw [store_success]
    exact applyAll_nodup now records db h
  | some k =>
    by_cases hk : k ≤ records.length
    · rw [store_fail now k records db hk]
      exact h
    · rw [store_data_in_db, storeGo_late db now k records db 0 0 (by omega)]
      exact applyAll_nodup now records db h

/-- Concrete cleaned records for instance checks. -/
def sampleRec (c : String) (n : Rat) : CleanedRecord :=
  { country := c, country_code := pyUpper (pyTake c 3), continent := JVal.str "Eurasia",
    population := JVal.num 1000, total_cases := JVal.num n, new_cases := JVal.num 0,
    total_deaths := JVal.num 2, new_deaths := JVal.num 0, total_recovered := JVal.num 3,
    active_cases := JVal.num 4, critical_cases := JVal.num 0, cases_per_million := JVal.num 5,
    deaths_per_million := JVal.num 0, total_tests := JVal.num 6,
    tests_per_million := JVal.num 0 }

/-- Witness for C1: a batch with a duplicate country, ingested twice into
an initially empty store. -/
theorem c1_witness :
    (rowCountries (⟨[], 1⟩ : DB).rows).Nodup ∧
    ((store_data_in_db 9 none [sampleRec "A" 5, sampleRec "B" 2, sampleRec "A" 7]
        (store_data_in_db 5 none [sampleRec "A" 5, sampleRec "B" 2, sampleRec "A" 7]
          ⟨[], 1⟩).1).1.rows.map CovidRecord.core =
      (store_data_in_db 5 none [sampleRec "A" 5, sampleRec "B" 2, sampleRec "A" 7]
          ⟨[], 1⟩).1.rows.map CovidRecord.core ∧
     (store_data_in_db 9 none [sampleRec "A" 5, sampleRec "B" 2, sampleRec "A" 7]
        (store_data_in_db 5 none [sampleRec "A" 5, sampleRec "B" 2, sampleRec "A" 7]
          ⟨[], 1⟩).1).1.rows.length =
      (store_data_in_db 5 none [sampleRec "A" 5, sampleRec "B" 2, sampleRec "A" 7]
          ⟨[], 1⟩).1.rows.length ∧
     (store_data_in_db 9 none [sampleRec "A" 5, sampleRec "B" 2, sampleRec "A" 7]
        (store_data_in_db 5 none [sampleRec "A" 5, sampleRec "B" 2, sampleRec "A" 7]
          ⟨[], 1⟩).1).1.nextId =
      (store_data_in_db 5 none [sampleRec "A" 5, sampleRec "B" 2, sampleRec "A" 7]
          ⟨[], 1⟩).1.nextId ∧
     (store_data_in_db 9 none [sampleRec "A" 5, sampleRec "B" 2, sampleRec "A" 7]
        (store_data_in_db 5 none [sampleRec "A" 5, sampleRec "B" 2, sampleRec "A" 7]
          ⟨[], 1⟩).1).2 =
      (store_data_in_db 5 none [sampleRec "A" 5, sampleRec "B" 2, sampleRec "A" 7]
          ⟨[], 1⟩).2) ∧
    (store_data_in_db 5 none [sampleRec "A" 5, sampleRec "B" 2, sampleRec "A" 7]
        ⟨[], 1⟩).1.rows.length = 2 :=
  ⟨List.nodup_nil,
   c1_idempotent 5 9 [sampleRec "A" 5, sampleRec "B" 2, sampleRec "A" 7] ⟨[], 1⟩
     List.nodup_nil,
   rfl⟩

/-- Witness for C2: failure at the commit step of a two-record batch
rolls back; the failure-free run stores both and reports 2. -/
theorem c2_witness :
    (2 ≤ [sampleRec "A" 5, sampleRec "B" 2].length →
      store_data_in_db 3 (some 2) [sampleRec "A" 5, sampleRec "B" 2] ⟨[], 1⟩ =
        (⟨[], 1⟩, 0)) ∧
    store_data_in_db 3 none [sampleRec "A" 5, sampleRec "B" 2] ⟨[], 1⟩ =
      (applyAll 3 ⟨[], 1⟩ [sampleRec "A" 5, sampleRec "B" 2],
        [sampleRec "A" 5, sampleRec "B" 2].length) ∧
    2 ≤ [sampleRec "A" 5, sampleRec "B" 2].length ∧
    store_data_in_db 3 (some 2) [sampleRec "A" 5, sampleRec "B" 2] ⟨[], 1⟩ = (⟨[], 1⟩, 0) :=
  ⟨(c2_rollback_or_count 3 [sampleRec "A" 5, sampleRec "B" 2] ⟨[], 1⟩ 2).1,
   (c2_rollback_or_count 3 [sampleRec "A" 5, sampleRec "B" 2] ⟨[], 1⟩ 2).2,
   by simp,
   (c2_rollback_or_count 3 [sampleRec "A" 5, sampleRec "B" 2] ⟨[], 1⟩ 2).1 (by simp)⟩

/-- Witness for C3: a duplicate-country batch over a store that already
holds one of the countries. -/
theorem c3_witness :
    (rowCountries (⟨[⟨1, sampleRec "A" 1, 0⟩], 2⟩ : DB).rows).Nodup ∧
    (rowCountries (store_data_in_db 4 none
        [sampleRec "A" 5, sampleRec "B" 2, sampleRec "A" 7]
        ⟨[⟨1, sampleRec "A" 1, 0⟩], 2⟩).1.rows).Nodup ∧
    rowCountries (store_data_in_db 4 none
        [sampleRec "A" 5, sampleRec "B" 2, sampleRec "A" 7]
        ⟨[⟨1, sampleRec "A" 1, 0⟩], 2⟩).1.rows = ["A", "B"] :=
  ⟨by simp [rowCountries, CovidRecord.country],
   c3_unique_invariant 4 none [sampleRec "A" 5, sampleRec "B" 2, sampleRec "A" 7]
     ⟨[⟨1, sampleRec "A" 1, 0⟩], 2⟩ (by simp [rowCountries, CovidRecord.country]),
   rfl⟩

/-! ### Query layer -/

/-- A cleaned record carrying the given stored sums. -/
def sumsRec (cases deaths recovered : Rat) : CleanedRecord :=
  { sampleRec "A" cases with
    total_deaths := JVal.num deaths
    total_recovered := JVal.num recovered }

/-- A store whose single row has stored sums cases=100, deaths=10,
recovered=50. -/
def statsPosDB : DB := ⟨[⟨1, sumsRec 100 10 50, 0⟩], 2⟩

/-- A store where deaths exceed cases plus recovered. -/
def statsNegDB : DB := ⟨[⟨1, sumsRec 0 10 0, 0⟩], 2⟩

/-- C8: the statistics endpoint reports the unfiltered whole-store count
and sums, and a derived active figure equal to cases minus deaths minus
recovered — 40 at stored sums 100/10/50, and negative when deaths exceed
cases plus recovered. -/
theorem c8_statistics_sums (db : DB) :
    (get_statistics db).total_records = db.rows.length ∧
    (get_statistics db).total_cases = sumField db.rows (fun r => r.total_cases) ∧
    (get_statistics db).total_deaths = sumField db.rows (fun r => r.total_deaths) ∧
    (get_statistics db).total_recovered = sumField db.rows (fun r => r.total_recovered) ∧
    (get_statistics db).active_cases =
      (get_statistics db).total_cases - (get_statistics db).total_deaths -
        (get_statistics db).total_recovered ∧
    (get_statistics statsPosDB).active_cases = 40 ∧
    (get_statistics statsNegDB).active_cases < 0 := by
  refine ⟨rfl, rfl, rfl, rfl, rfl, ?_, ?_⟩
  · show sumField statsPosDB.rows (fun r => r.total_cases) -
        sumField statsPosDB.rows (fun r => r.total_deaths) -
        sumField statsPosDB.rows (fun r => r.total_recovered) = 40
    norm_num [statsPosDB, sumsRec, sampleRec, sumField, jvalNum]
  · show sumField statsNegDB.rows (fun r => r.total_cases) -
        sumField statsNegDB.rows (fun r => r.total_deaths) -
        sumField statsNegDB.rows (fun r => r.total_recovered) < 0
    norm_num [statsNegDB, sumsRec, sampleRec, sumField, jvalNum]

/-- C9: the list endpoint reports the filtered total, the page slice of
the filtered-and-sorted sequence, and a page count that is exactly
ceil(total / per_page). -/
theorem c9_pagination (db : DB) (page per_page : Nat) (country continent : String)
    (sort_by : SortField) (order : Option String)
    (hpage : 1 ≤ page) (hpp : 1 ≤ per_page) :
    (get_records db page per_page country continent sort_by order).records =
      ((sortedRows (filteredRows db country continent) sort_by (order.getD "desc")).drop
        ((page - 1) * per_page)).take per_page ∧
    (get_records db page per_page country continent sort_by order).total =
      (filteredRows db country continent).length ∧
    (get_records db page per_page country continent sort_by order).pages =
      ((filteredRows db country continent).length + per_page - 1) / per_page ∧
    (get_records db page per_page country continent sort_by order).total ≤
      (get_records db page per_page country continent sort_by order).pages * per_page ∧
    (get_records db page per_page country continent sort_by order).pages * per_page <
      (get_records db page per_page country continent sort_by order).total + per_page := by
  refine ⟨rfl, rfl, rfl, ?_, ?_⟩
  · show (filteredRows db country continent).length ≤
      (((filteredRows db country continent).length + per_page - 1) / per_page) * per_page
    have hlt := (Nat.div_lt_iff_lt_mul (show 0 < per_page by omega)).mp
      (Nat.lt_succ_self (((filteredRows db country continent).length + per_page - 1) / per_page))
    rw [Nat.succ_mul] at hlt
    omega
  · show (((filteredRows db country continent).length + per_page - 1) / per_page) * per_page <
      (filteredRows db country continent).length + per_page
    have hle := Nat.div_mul_le_self
      ((filteredRows db country continent).length + per_page - 1) per_page
    omega

/-- A 25-row store for the concrete pagination instance (ids 1..25, the
i-th row holding i-1 total cases). -/
def db25 : DB := ⟨(List.range 25).map (fun i => ⟨i + 1, sampleRec "c" i, 0⟩), 26⟩

/-- Witness for C9: page 2 at 10 per page over 25 rows returns rows
11-20 of the descending sort and reports 3 pages. -/
theorem c9_witness :
    (1 ≤ 2 ∧ 1 ≤ 10) ∧
    ((get_records db25 2 10 "" "" SortField.total_cases none).records =
      ((sortedRows (filteredRows db25 "" "") SortField.total_cases
          ((none : Option String).getD "desc")).drop ((2 - 1) * 10)).take 10 ∧
     (get_records db25 2 10 "" "" SortField.total_cases none).total =
      (filteredRows db25 "" "").length ∧
     (get_records db25 2 10 "" "" SortField.total_cases none).pages =
      ((filteredRows db25 "" "").length + 10 - 1) / 10 ∧
     (get_records db25 2 10 "" "" SortField.total_cases none).total ≤
      (get_records db25 2 10 "" "" SortField.total_cases none).pages * 10 ∧
     (get_records db25 2 10 "" "" SortField.total_cases none).pages * 10 <
      (get_records db25 2 10 "" "" SortField.total_cases none).total + 10) ∧
    (get_records db25 2 10 "" "" SortField.total_cases none).records.map CovidRecord.id =
      [15, 14, 13, 12, 11, 10, 9, 8, 7, 6] ∧
    (get_records db25 2 10 "" "" SortField.total_cases none).total = 25 ∧
    (get_records db25 2 10 "" "" SortField.total_cases none).pages = 3 :=
  ⟨⟨by decide, by decide⟩,
   c9_pagination db25 2 10 "" "" SortField.total_cases none (by decide) (by decide),
   rfl, rfl, rfl⟩

/-- C10: the descending branch is taken exactly for the literal string
`"desc"`: any other supplied value — `"DESC"` and `"Desc"` included —
silently yields ascending order, and only an absent parameter defaults
to descending. -/
theorem c10_order_literal_desc (db : DB) (page per_page : Nat) (country continent : String)
    (sort_by : SortField) (s : String) (h : s ≠ "desc") :
    (get_records db page per_page country continent sort_by (some s)).records =
      ((sortLe (fun a b => jle (keyOf sort_by a) (keyOf sort_by b))
          (filteredRows db country continent)).drop ((page - 1) * per_page)).take per_page ∧
    (get_records db page per_page country continent sort_by none).records =
      ((sortLe (fun a b => jle (keyOf sort_by b) (keyOf sort_by a))
          (filteredRows db country continent)).drop ((page - 1) * per_page)).take per_page ∧
    (get_records db page per_page country continent sort_by (some "desc")).records =
      (get_records db page per_page country continent sort_by none).records := by
  have hsorted : sortedRows (filteredRows db country continent) sort_by s =
      sortLe (fun a b => jle (keyOf sort_by a) (keyOf sort_by b))
        (filteredRows db country continent) := by
    rw [sortedRows, if_neg h]
  refine ⟨?_, rfl, rfl⟩
  show ((sortedRows (filteredRows db country continent) sort_by ((some s).getD "desc")).drop
      ((page - 1) * per_page)).take per_page = _
  rw [show ((some s).getD "desc") = s from rfl, hsorted]

/-- A two-row store for the order-parameter instance. -/
def dbOrd : DB := ⟨[⟨1, sampleRec "x" 5, 0⟩, ⟨2, sampleRec "y" 9, 0⟩], 3⟩

/-- Witness for C10 at the upper-case string "DESC": it sorts ascending,
while an absent parameter sorts descending. -/
theorem c10_witness :
    ("DESC" : String) ≠ "desc" ∧
    ((get_records dbOrd 1 10 "" "" SortField.total_cases (some "DESC")).records =
      ((sortLe (fun a b => jle (keyOf SortField.total_cases a) (keyOf SortField.total_cases b))
          (filteredRows dbOrd "" "")).drop ((1 - 1) * 10)).take 10 ∧
     (get_records dbOrd 1 10 "" "" SortField.total_cases none).records =
      ((sortLe (fun a b => jle (keyOf SortField.total_cases b) (keyOf SortField.total_cases a))
          (filteredRows dbOrd "" "")).drop ((1 - 1) * 10)).take 10 ∧
     (get_records dbOrd 1 10 "" "" SortField.total_cases (some "desc")).records =
      (get_records dbOrd 1 10 "" "" SortField.total_cases none).records) ∧
    (get_records dbOrd 1 10 "" "" SortField.total_cases (some "DESC")).records.map
      CovidRecord.id = [1, 2] ∧
    (get_records dbOrd 1 10 "" "" SortField.total_cases none).records.map
      CovidRecord.id = [2, 1] :=
  ⟨by decide,
   c10_order_literal_desc dbOrd 1 10 "" "" SortField.total_cases "DESC" (by decide),
   rfl, rfl⟩

end CovidApp
